import Mathlib

/-!
Verification of the insider-trade monitor backend (`Backend.py`).

The Python source is shallowly embedded: each Python function becomes a Lean
definition of the same name.  External effects (the HTTP page fetch, the
market-data provider, the wall clock) are passed in as explicit parameters;
Python exceptions become explicit result constructors; Python floats are
modelled as exact rationals `ℚ` (the claims under study concern the *shape*
of formatted output and control flow, which do not depend on binary float
rounding); Python's `functools.lru_cache` state is threaded explicitly.
-/

/-- Outcome of a Python sub-expression that may raise. `exc .typed` stands for
the exception classes caught by the inner handler in `fetch_single_price`
(`KeyError`, `TypeError`, `AttributeError`); `exc .other` stands for any other
exception (e.g. a transport error), caught only by the outer
`except Exception`. -/
inductive PyExc where
  | typed
  | other
deriving DecidableEq

inductive PyResult (α : Type) where
  | ok (a : α)
  | exc (e : PyExc)
deriving DecidableEq

/-- A dynamically-typed Python value as far as the price code observes it:
either a number (float/int, modelled as `ℚ`) or a string. -/
inductive PyVal where
  | num (q : ℚ)
  | str (s : String)
deriving DecidableEq

/-- Value of a digit-only string read in base 10, as Python `int` computes it. -/
def parseDigitsNat (l : List Char) : ℕ :=
  l.foldl (fun a c => 10 * a + (c.toNat - 48)) 0

/-- Python `int(s)` restricted to the strings that can reach it here
(characters are digits only, after commas are stripped): `none` models
`ValueError` on the empty string. -/
def pyIntDigits (s : String) : Option ℕ :=
  if s.data ≠ [] ∧ s.data.all Char.isDigit then some (parseDigitsNat s.data) else none

/-- Python `float(s)` restricted to strings of digits and dots (the only
characters surviving `re.sub(r'[^\d.]', '', value)`): defined iff the string
holds at least one digit and at most one dot, matching `float`'s grammar on
such strings.  The value `ip.fp` is the exact rational
`(ip * 10^|fp| + fp) / 10^|fp|`, built with `mkRat` so the kernel can
evaluate it. -/
def pyFloat (s : String) : Option ℚ :=
  let l := s.data
  if l.any Char.isDigit ∧ l.count '.' ≤ 1 then
    let ip := l.takeWhile (fun c => c ≠ '.')
    let fp := (l.dropWhile (fun c => c ≠ '.')).drop 1
    some (mkRat (parseDigitsNat ip * 10 ^ fp.length + parseDigitsNat fp) (10 ^ fp.length))
  else none

/-- Exact rational division, written out on numerators and denominators
(`a / b = (a.num * b.den) / (a.den * b.num)`) because the kernel cannot
evaluate `Rat.div`; `pyDiv_eq_div` below shows it is ordinary division. -/
def pyDiv (a b : ℚ) : ℚ :=
  Rat.divInt (a.num * (b.den : ℤ)) ((a.den : ℤ) * b.num)

/-- Floor of a rational: `q.den` is positive, so flooring division of the
numerator by the denominator is the floor of `q`. -/
def ratFloor (q : ℚ) : ℤ :=
  Int.fdiv q.num (q.den : ℤ)

/-- Round `q` to the nearest integer, ties to even — the rounding used by
Python's fixed-point string formatting.  The fractional part of `q` is
`(q.num - f * q.den) / q.den`, so comparing twice its numerator with `q.den`
compares the fraction with `1/2` in exact integer arithmetic. -/
def roundHalfEven (q : ℚ) : ℤ :=
  let f := ratFloor q
  let r2 := 2 * (q.num - f * (q.den : ℤ))
  if r2 < (q.den : ℤ) then f
  else if (q.den : ℤ) < r2 then f + 1
  else if f % 2 = 0 then f else f + 1

def natDigitChar (n : ℕ) : Char :=
  Char.ofNat (48 + n)

/-- The `p` base-10 digits of `v < 10^p`, most significant first. -/
def fracDigitChars : ℕ → ℕ → List Char
  | 0, _ => []
  | p + 1, v => natDigitChar (v / 10 ^ p) :: fracDigitChars p (v % 10 ^ p)

/-- Python `f"{q:.prec f}"` on a rational: sign, integer part, a dot, and
exactly `prec` fractional digits.  `q * 10^prec` is spelled
`Rat.divInt (q.num * 10^prec) q.den` (the same rational) for kernel
evaluability. -/
def formatFixed (prec : ℕ) (q : ℚ) : String :=
  let n := roundHalfEven (Rat.divInt (q.num * (10 : ℤ) ^ prec) (q.den : ℤ))
  let m := n.natAbs
  (if n < 0 then "-" else "") ++ Nat.repr (m / 10 ^ prec) ++ "." ++
    String.mk (fracDigitChars prec (m % 10 ^ prec))

/-- Capture of `re.match(r'([\d,]+)\s*\$|([\d,]+)', s)`: the two groups.
Both alternatives anchor at the start and capture a run of `[\d,]`; the first
alternative can only succeed on the *maximal* such run (a shorter prefix is
followed by another `[\d,]` character, which neither `\s*` nor `\$` accepts),
so the captured text is the maximal run either way, and the alternatives only
decide which group carries it. `none` models a failed match. -/
def matchShareRegex (s : String) : Option (Option String × Option String) :=
  let cs := s.data
  let r := cs.takeWhile (fun c => c.isDigit || c == ',')
  if r.isEmpty then none
  else
    let rest := (cs.drop r.length).dropWhile Char.isWhitespace
    if rest.head? = some '$' then some (some (String.mk r), none)
    else some (none, some (String.mk r))

/-- Lines 49–50 of `Backend.py`: the parsed share count. `some 0` is the
explicit `else 0` taken when the regex fails; `none` models a `ValueError`
from `int` (group text entirely commas). `group(1) or group(2)` picks the
non-`None` group — group text is never empty, so Python's falsy-`or` reduces
to that. -/
def share_count_of (share_and_price : String) : Option ℕ :=
  match matchShareRegex share_and_price with
  | none => some 0
  | some (some g, _) => pyIntDigits (String.mk (g.data.filter (fun c => c ≠ ',')))
  | some (none, some g) => pyIntDigits (String.mk (g.data.filter (fun c => c ≠ ',')))
  | some (none, none) => none

/-- Line 53 of `Backend.py`: `float(re.sub(r'[^\d.]', '', value)) if value else 0.0`.
`none` models a `ValueError` from `float`. -/
def total_value_of (value : String) : Option ℚ :=
  if value = "" then some 0
  else pyFloat (String.mk (value.data.filter (fun c => c.isDigit || c == '.')))

/-- Lines 47–59 of `Backend.py`: the whole `try` block computing `avg_price`.
An exception in either parse (either `Option` being `none`) lands in the
`except` arm, which sets `"N/A"`; note Python evaluates the share count first,
so a value-parse error with a failed share parse is never reached — either
order of `none`s yields `"N/A"`, as here. -/
def avg_price_of (share_and_price value : String) : String :=
  match share_count_of share_and_price, total_value_of value with
  | some share_count, some total_value =>
      if 0 < share_count then formatFixed 2 (pyDiv total_value (share_count : ℚ)) else "N/A"
  | _, _ => "N/A"

/-- One row of the JSON payload (`data.append({...})`, lines 62–71).
`real_time_price` is attached by the enrichment loop (lines 79–80); until
then the field holds `""`. -/
structure TradeRecord where
  symbol : String
  company : String
  insider_name : String
  trade_type : String
  share_and_price : String
  value : String
  date_and_time : String
  avg_price : String
  real_time_price : String
deriving DecidableEq

/-- Lines 38–71 of `Backend.py` for one row: seven trimmed cells, an empty
symbol normalised to `"N/A"` (Python `or "N/A"`), and the derived
`avg_price`. -/
def mkRecord (cells : List String) : TradeRecord :=
  let sym := (cells.getD 0 "").trim
  { symbol := if sym = "" then "N/A" else sym
    company := (cells.getD 1 "").trim
    insider_name := (cells.getD 2 "").trim
    trade_type := (cells.getD 3 "").trim
    share_and_price := (cells.getD 4 "").trim
    value := (cells.getD 5 "").trim
    date_and_time := (cells.getD 6 "").trim
    avg_price := avg_price_of ((cells.getD 4 "").trim) ((cells.getD 5 "").trim)
    real_time_price := "" }

/-- Lines 31–73: a page is the list of `table tr` rows, each the list of its
`td` cell texts.  `[1:]` skips the header row; a row with fewer than 7 cells
is `continue`d over; the rest are appended in document order. -/
def parse_rows (table_rows : List (List String)) : List TradeRecord :=
  (table_rows.drop 1).filterMap
    (fun cells => if cells.length < 7 then none else some (mkRecord cells))

/-- Lines 86–92 of `Backend.py`.  In this embedding a symbol is always a
`String`, so the `isinstance(symbol, str)` conjunct is always true; `not
symbol` is the empty-string falsiness test; `re.search(r"[#@/]", symbol)`
finds a forbidden character anywhere in the string. -/
def is_valid_symbol (symbol : String) : Bool :=
  if symbol = "" ∨ symbol = "N/A" then false
  else if symbol.data.any (fun c => c == '#' || c == '@' || c == '/') then false
  else true

/-- The observable behaviour of one `yf.Ticker` as `fetch_single_price`
exercises it.  `fastInfoLast` is the evaluation of
`stock.fast_info.get("last_price", "N/A")` up to its result: `ok none` means
the call returned the `"N/A"` default (field missing), `ok (some v)` the
stored value, `exc e` an exception from the attribute access.  `closeSeries`
is the evaluation of `stock.history(period="1d")["Close"]`: its values, or an
exception (a `KeyError` on a missing column is `.typed`; a transport error is
`.other`). -/
structure TickerEnv where
  fastInfoLast : PyResult (Option PyVal)
  closeSeries : PyResult (List ℚ)
deriving DecidableEq

/-- The inner `try` of `fetch_single_price` (lines 100–107): the value bound
to `price` when control reaches line 108, or the exception that escapes to
the outer handler.  `.exc .typed` never escapes (the inner `except` catches
it and sets `price = "N/A"`); `.exc .other` does. -/
def inner_price (env : TickerEnv) : PyResult PyVal :=
  match env.fastInfoLast with
  | .exc .typed => .ok (.str "N/A")
  | .exc .other => .exc .other
  | .ok fv =>
    let price := fv.getD (PyVal.str "N/A")
    if price = PyVal.str "N/A" then
      match env.closeSeries with
      | .exc .typed => .ok (.str "N/A")
      | .exc .other => .exc .other
      | .ok closes =>
        match closes.getLast? with
        | none => .ok (.str "N/A")
        | some q => .ok (.num q)
    else .ok price

/-- Lines 96–110 of `Backend.py`.  Line 108 formats a numeric `price` as
`f"${price:.5f}"`; applying that format to a non-`"N/A"` *string* raises a
`ValueError`, which the outer `except Exception` (line 109) turns into
`"N/A"`, as it does for any exception escaping the inner block. -/
def fetch_single_price (env : TickerEnv) (symbol : String) : String × String :=
  match inner_price env with
  | .exc _ => (symbol, "N/A")
  | .ok (.str s) => if s = "N/A" then (symbol, "N/A") else (symbol, "N/A")
  | .ok (.num q) => (symbol, "$" ++ formatFixed 5 q)

/-- Python `dict.get(k, d)` over the insertion history of `results`: repeated
assignment to the same key keeps the last value, so the get is a reverse
search of the assignment list. -/
def dictGet (m : List (String × String)) (k d : String) : String :=
  match m.reverse.find? (fun p => p.1 == k) with
  | some p => p.2
  | none => d

/-- Lines 120–127: the assignments `results[symbol] = price` produced by the
futures, in submission order.  The per-symbol ticker behaviour is supplied by
`envs`, so each symbol's lookup depends only on its own ticker. -/
def price_results (envs : String → TickerEnv) (valid_symbols : List String) :
    List (String × String) :=
  valid_symbols.map (fun s => fetch_single_price (envs s) s)

/-- The state of `functools.lru_cache(maxsize=100)` on `fetch_stock_prices`:
association list from the tuple argument to the cached return value, most
recently used first. -/
structure LRUCache where
  entries : List (List String × List (String × String))
deriving DecidableEq

def lru_lookup (st : LRUCache) (k : List String) :
    Option (List (String × String)) :=
  (st.entries.find? (fun e => e.1 == k)).map (fun e => e.2)

/-- A cache hit moves the key to the most-recently-used position. -/
def lru_touch (st : LRUCache) (k : List String) (v : List (String × String)) :
    LRUCache :=
  ⟨(k, v) :: st.entries.filter (fun e => !(e.1 == k))⟩

/-- A miss inserts at the most-recently-used position and drops the
least-recently-used entry if the capacity of 100 is exceeded. -/
def lru_insert (st : LRUCache) (k : List String) (v : List (String × String)) :
    LRUCache :=
  ⟨((k, v) :: st.entries).take 100⟩

/-- The observable outcome of one call to `fetch_stock_prices`: the returned
mapping, the cache state after the call, how many per-symbol upstream lookups
were submitted, and whether the `time.sleep(random.uniform(0.5, 1))` throttle
on line 130 was executed. -/
structure FSPResult where
  prices : List (String × String)
  cache : LRUCache
  lookups : ℕ
  delayed : Bool
deriving DecidableEq

/-- Lines 113–132 of `Backend.py`, with the `@lru_cache(maxsize=100)` state
threaded explicitly.  On a hit the decorator returns the stored mapping
without entering the body (no lookups, no sleep).  On a miss the body runs:
`valid_symbols` filters the tuple; an empty filtrate returns `{}` before the
executor and the sleep; otherwise every valid symbol (duplicates included —
the code does not dedupe) is submitted and the sleep runs.  Either returned
value is stored in the cache by the decorator. -/
def fetch_stock_prices (envs : String → TickerEnv) (st : LRUCache)
    (symbols : List String) : FSPResult :=
  match lru_lookup st symbols with
  | some v => ⟨v, lru_touch st symbols v, 0, false⟩
  | none =>
    let valid_symbols := symbols.filter is_valid_symbol
    if valid_symbols.isEmpty then ⟨[], lru_insert st symbols [], 0, false⟩
    else
      let results := price_results envs valid_symbols
      ⟨results, lru_insert st symbols results, valid_symbols.length, true⟩

/-- Lines 79–80: `entry["real_time_price"] = stock_prices.get(entry["symbol"], "N/A")`. -/
def attach_prices (data : List TradeRecord) (stock_prices : List (String × String)) :
    List TradeRecord :=
  data.map (fun entry =>
    { entry with real_time_price := dictGet stock_prices entry.symbol "N/A" })

/-- Result of `scrape_insider_data`: on a fetch failure the function returns
the dict `{"error": ...}` (line 25) — it does not raise — otherwise the
enriched row list. -/
inductive ScrapeResult where
  | fetchError (msg : String)
  | records (data : List TradeRecord)
deriving DecidableEq

/-- Lines 17–82 of `Backend.py`.  The page fetch is passed in as
`page : Except String _`: `.error e` covers both a transport error and
`raise_for_status` on a non-success status, both caught on line 24, with `e`
the exception's string form interpolated into the error message.  The parsed
page is the `table tr` row list, each row the list of its `td` cell texts. -/
def scrape_insider_data (page : Except String (List (List String)))
    (envs : String → TickerEnv) (st : LRUCache) : ScrapeResult × LRUCache :=
  match page with
  | .error e => (.fetchError ("Failed to fetch data: " ++ e), st)
  | .ok table_rows =>
    let data := parse_rows table_rows
    let symbols_list := data.map (fun r => r.symbol)
    let res := fetch_stock_prices envs st symbols_list
    (.records (attach_prices data res.prices), res.cache)

/-- A JSON response body: either the serialized row array or an object whose
single key is `"error"`. -/
inductive JsonBody where
  | arr (data : List TradeRecord)
  | errObj (msg : String)
deriving DecidableEq

/-- Lines 136–142 of `Backend.py`: the endpoint body.  `scrape_insider_data`
returns normally on a fetch failure (it returns the error dict rather than
raising), so `jsonify(data)` serves that dict with Flask's default status
200; the `except` arm returning status 500 is reached only by an exception,
which no modelled path raises. -/
def get_data (page : Except String (List (List String)))
    (envs : String → TickerEnv) (st : LRUCache) : (ℕ × JsonBody) × LRUCache :=
  match scrape_insider_data page envs st with
  | (.fetchError m, st2) => ((200, .errObj m), st2)
  | (.records d, st2) => ((200, .arr d), st2)

/-- A fixed ticker environment for concrete witnesses: the live-price field
is missing and the historical series is empty, so every lookup yields
`"N/A"`. -/
def envs0 : String → TickerEnv := fun _ => ⟨.ok none, .ok []⟩

/-- A concrete full cache (100 distinct keys) for witnesses. -/
def st100 : LRUCache :=
  ⟨(List.range 100).map (fun i => ([Nat.repr i], []))⟩

theorem pyDiv_eq_div (a b : ℚ) : pyDiv a b = a / b := by
  rcases eq_or_ne b 0 with rfl | hb
  · simp [pyDiv]
  · have had : (a.den : ℚ) ≠ 0 := Nat.cast_ne_zero.mpr a.den_nz
    have hbd : (b.den : ℚ) ≠ 0 := Nat.cast_ne_zero.mpr b.den_nz
    have hbn : (b.num : ℚ) ≠ 0 := by simpa using Rat.num_ne_zero.mpr hb
    rw [pyDiv, Rat.divInt_eq_div]
    conv_rhs => rw [← Rat.num_div_den a, ← Rat.num_div_den b]
    push_cast
    field_simp

theorem fracDigitChars_length (p v : ℕ) : (fracDigitChars p v).length = p := by
  induction p generalizing v with
  | zero => rfl
  | succ p ih => simp [fracDigitChars, ih]

theorem natDigitChar_isDigit (d : ℕ) (h : d < 10) : (natDigitChar d).isDigit = true := by
  interval_cases d <;> decide

theorem fracDigitChars_all_isDigit (p v : ℕ) (h : v < 10 ^ p) :
    (fracDigitChars p v).all Char.isDigit = true := by
  induction p generalizing v with
  | zero => rfl
  | succ p ih =>
    have h1 : v / 10 ^ p < 10 := by
      rw [Nat.div_lt_iff_lt_mul (Nat.pos_pow_of_pos p (by norm_num))]
      calc v < 10 ^ (p + 1) := h
        _ = 10 * 10 ^ p := by ring
        _ ≤ 10 * 10 ^ p := le_refl _
    have h2 : v % 10 ^ p < 10 ^ p := Nat.mod_lt _ (Nat.pos_pow_of_pos p (by norm_num))
    simp [fracDigitChars, List.all_cons, natDigitChar_isDigit _ h1, ih _ h2]

/-- Every output of `formatFixed prec` splits as an integer part, a dot, and
exactly `prec` digit characters. -/
theorem formatFixed_shape (prec : ℕ) (q : ℚ) :
    ∃ (a : String) (ds : List Char),
      formatFixed prec q = a ++ "." ++ String.mk ds ∧
      ds.length = prec ∧ ds.all Char.isDigit = true := by
  refine ⟨(if roundHalfEven (Rat.divInt (q.num * (10 : ℤ) ^ prec) (q.den : ℤ)) < 0
      then "-" else "") ++
      Nat.repr ((roundHalfEven (Rat.divInt (q.num * (10 : ℤ) ^ prec) (q.den : ℤ))).natAbs / 10 ^ prec),
    fracDigitChars prec
      ((roundHalfEven (Rat.divInt (q.num * (10 : ℤ) ^ prec) (q.den : ℤ))).natAbs % 10 ^ prec),
    rfl, fracDigitChars_length _ _,
    fracDigitChars_all_isDigit _ _ (Nat.mod_lt _ (Nat.pos_pow_of_pos prec (by norm_num)))⟩

/-- C6: for shareAndPrice = "100 $1500" and value = "$1,500.00" the derivation
produces shareCount = 100, totalValue = 1500.0 and avgPrice = "15.00". -/
theorem example_row_derivation :
    share_count_of "100 $1500" = some 100 ∧
    total_value_of "$1,500.00" = some (1500 : ℚ) ∧
    avg_price_of "100 $1500" "$1,500.00" = "15.00" := by
  refine ⟨by decide, by decide, by decide⟩

/-- C1 (counterexample): on an upstream fetch failure the endpoint does NOT
respond with HTTP status 500 — `scrape_insider_data` returns the error dict
instead of raising, so `get_data` serves it through `jsonify(data)` with
Flask's default status 200. -/
theorem fetch_failure_returns_200_cex :
    (get_data (Except.error "boom") envs0 ⟨[]⟩).1.1 = 200 ∧
    ¬(get_data (Except.error "boom") envs0 ⟨[]⟩).1.1 = 500 ∧
    (get_data (Except.error "boom") envs0 ⟨[]⟩).1.2 =
      JsonBody.errObj "Failed to fetch data: boom" := by
  refine ⟨rfl, by decide, rfl⟩

/-- C1 (amended): for every request in which the upstream page fetch fails,
the endpoint responds with HTTP status 200 whose body is a JSON object
containing an "error" key, and no row data is returned; the 500 status is
reserved for exceptions escaping the pipeline, which a handled fetch failure
never is. -/
theorem fetch_failure_error_payload (e : String) (envs : String → TickerEnv)
    (st : LRUCache) :
    get_data (Except.error e) envs st =
      ((200, JsonBody.errObj ("Failed to fetch data: " ++ e)), st) := rfl

/-- C2: for every shareAndPrice and value string, the avgPrice derivation is
total and yields either the 2-decimal formatting of value ÷ shareCount
(an integer part, a dot, and exactly two digits) or exactly "N/A"; a zero or
unparsable share count yields "N/A". -/
theorem avg_price_formatted_or_na (sp v : String) :
    (avg_price_of sp v = "N/A" ∨
      ∃ (sc : ℕ) (tv : ℚ), share_count_of sp = some sc ∧ 0 < sc ∧
        total_value_of v = some tv ∧
        avg_price_of sp v = formatFixed 2 (tv / (sc : ℚ)) ∧
        ∃ (a : String) (ds : List Char),
          avg_price_of sp v = a ++ "." ++ String.mk ds ∧
          ds.length = 2 ∧ ds.all Char.isDigit = true) ∧
    (share_count_of sp = some 0 ∨ share_count_of sp = none →
      avg_price_of sp v = "N/A") := by
  constructor
  · rcases hsc : share_count_of sp with _ | sc
    · left; simp [avg_price_of, hsc]
    · rcases htv : total_value_of v with _ | tv
      · left; simp [avg_price_of, hsc, htv]
      · rcases Nat.eq_zero_or_pos sc with rfl | hpos
        · left; simp [avg_price_of, hsc, htv]
        · right
          refine ⟨sc, tv, rfl, hpos, rfl, ?_, ?_⟩
          · simp [avg_price_of, hsc, htv, hpos, pyDiv_eq_div]
          · have h := formatFixed_shape 2 (pyDiv tv (sc : ℚ))
            rcases h with ⟨a, ds, heq, hlen, hdig⟩
            exact ⟨a, ds, by simp [avg_price_of, hsc, htv, hpos, heq], hlen, hdig⟩
  · intro h
    rcases htv : total_value_of v with _ | tv <;>
      rcases h with h | h <;> simp [avg_price_of, h, htv]

/-- C2 (witness): a concrete unparsable share count degrades to "N/A". -/
theorem avg_price_formatted_or_na_witness :
    avg_price_of "abc shares" "1.50" = "N/A" :=
  (avg_price_formatted_or_na "abc shares" "1.50").2 (Or.inl (by decide))

theorem parse_rows_eq (l : List (List String)) :
    l.filterMap (fun cells => if cells.length < 7 then none else some (mkRecord cells)) =
      (l.filter (fun cells => decide (7 ≤ cells.length))).map mkRecord := by
  induction l with
  | nil => rfl
  | cons a t ih =>
    by_cases h : a.length < 7
    · have h2 : ¬ 7 ≤ a.length := by omega
      simp [List.filterMap_cons, List.filter_cons, h, h2, ih]
    · have h2 : 7 ≤ a.length := by omega
      simp [List.filterMap_cons, List.filter_cons, h, h2, ih]

/-- C7: parsing drops the header row and every row with fewer than 7 cells,
keeps the remaining records in document order, and the output row count is
the number of non-header rows with at least 7 cells. -/
theorem parse_rows_filter_spec (table_rows : List (List String)) :
    parse_rows table_rows =
      ((table_rows.drop 1).filter (fun cells => decide (7 ≤ cells.length))).map mkRecord ∧
    (parse_rows table_rows).length =
      ((table_rows.drop 1).filter (fun cells => decide (7 ≤ cells.length))).length := by
  refine ⟨parse_rows_eq _, ?_⟩
  rw [parse_rows, parse_rows_eq, List.length_map]

theorem fetch_single_price_fst (env : TickerEnv) (s : String) :
    (fetch_single_price env s).1 = s := by
  rcases h : inner_price env with v | e
  · rcases v with q | t
    · simp [fetch_single_price, h]
    · simp only [fetch_single_price, h]
      split <;> rfl
  · simp [fetch_single_price, h]

theorem find?_price_results (envs : String → TickerEnv) (l : List String) (k : String) :
    (l.map (fun s => fetch_single_price (envs s) s)).find? (fun p => p.1 == k) =
      if k ∈ l then some (k, (fetch_single_price (envs k) k).2) else none := by
  induction l with
  | nil => simp
  | cons s t ih =>
    by_cases hs : s = k
    · subst hs
      rw [List.map_cons, List.find?_cons_of_pos]
      · have h1 := fetch_single_price_fst (envs s) s
        simp only [List.mem_cons, true_or, if_true]
        congr 1
        exact Prod.ext h1 rfl
      · simp [fetch_single_price_fst]
    · rw [List.map_cons, List.find?_cons_of_neg, ih]
      · simp [List.mem_cons, hs, Ne.symm hs]
      · simp [fetch_single_price_fst, hs]

/-- `results.get(k, d)` for the batch over `l`: the price computed from `k`'s
own ticker if `k` was looked up, the default otherwise. -/
theorem dictGet_price_results (envs : String → TickerEnv) (l : List String)
    (k d : String) :
    dictGet (price_results envs l) k d =
      if k ∈ l then (fetch_single_price (envs k) k).2 else d := by
  unfold dictGet price_results
  rw [← List.map_reverse, find?_price_results]
  by_cases hk : k ∈ l <;> simp [hk, List.mem_reverse]

/-- C5: a symbol is valid iff it is non-empty, differs from "N/A" and contains
none of '#', '@', '/'; an invalid symbol is dropped from `valid_symbols`
before lookup, and a record bearing it resolves to the default via a lookup
miss on the computed mapping. -/
theorem valid_symbol_spec (s : String) :
    (is_valid_symbol s = true ↔
      s ≠ "" ∧ s ≠ "N/A" ∧ ∀ c ∈ s.data, c ≠ '#' ∧ c ≠ '@' ∧ c ≠ '/') ∧
    (is_valid_symbol s = false →
      ∀ symbols : List String, s ∉ symbols.filter is_valid_symbol) ∧
    (is_valid_symbol s = false →
      ∀ (envs : String → TickerEnv) (symbols : List String),
        dictGet (price_results envs (symbols.filter is_valid_symbol)) s "N/A" = "N/A") := by
  refine ⟨?_, ?_, ?_⟩
  · unfold is_valid_symbol
    split_ifs with h1 h2
    · simp only [Bool.false_eq_true, false_iff]
      rintro ⟨a, b, -⟩
      rcases h1 with h | h
      · exact a h
      · exact b h
    · simp only [Bool.false_eq_true, false_iff]
      rintro ⟨-, -, hc⟩
      rw [List.any_eq_true] at h2
      obtain ⟨c, hcm, hcv⟩ := h2
      have := hc c hcm
      simp only [Bool.or_eq_true, beq_iff_eq] at hcv
      tauto
    · simp only [true_iff]
      push_neg at h1
      refine ⟨h1.1, h1.2, fun c hcm => ?_⟩
      rw [List.any_eq_true] at h2
      push_neg at h2
      have := h2 c hcm
      simp only [ne_eq, Bool.or_eq_true, beq_iff_eq, not_or] at this
      tauto
  · intro hf symbols hmem
    rw [List.mem_filter] at hmem
    rw [hf] at hmem
    exact absurd hmem.2 (by simp)
  · intro hf envs symbols
    rw [dictGet_price_results, if_neg]
    intro hmem
    rw [List.mem_filter] at hmem
    rw [hf] at hmem
    exact absurd hmem.2 (by simp)

/-- C5 (witness): the spec's concrete examples, and "BRK/B" resolving to
"N/A" by lookup miss. -/
theorem valid_symbol_spec_witness :
    is_valid_symbol "AAPL" = true ∧ is_valid_symbol "BRK/B" = false ∧
    is_valid_symbol "N/A" = false ∧ is_valid_symbol "" = false ∧
    dictGet (price_results envs0 (["BRK/B"].filter is_valid_symbol)) "BRK/B" "N/A" = "N/A" :=
  ⟨by decide, by decide, by decide, by decide,
    (valid_symbol_spec "BRK/B").2.2 (by decide) envs0 ["BRK/B"]⟩

/-- C8: every price string a single-symbol lookup produces is either the
dollar-prefixed 5-decimal formatting of a number or exactly "N/A"; no other
shape occurs. -/
theorem price_string_shape (env : TickerEnv) (sym : String) :
    (∃ (q : ℚ) (a : String) (ds : List Char),
      (fetch_single_price env sym).2 = "$" ++ formatFixed 5 q ∧
      formatFixed 5 q = a ++ "." ++ String.mk ds ∧
      ds.length = 5 ∧ ds.all Char.isDigit = true) ∨
    (fetch_single_price env sym).2 = "N/A" := by
  rcases h : inner_price env with v | e
  · rcases v with q | t
    · left
      obtain ⟨a, ds, heq, hlen, hdig⟩ := formatFixed_shape 5 q
      exact ⟨q, a, ds, by simp [fetch_single_price, h], heq, hlen, hdig⟩
    · right
      simp only [fetch_single_price, h]
      split <;> rfl
  · right
    simp [fetch_single_price, h]

/-- C4 (counterexample): a transport error during the live-price retrieval
does NOT fall back to the historical closing price even when the series is
available — the outer `except Exception` maps it straight to "N/A" (the
claimed fallback (b) would have produced "$10.00000"). -/
theorem single_price_skips_history_cex :
    fetch_single_price ⟨.exc .other, .ok [(10 : ℚ)]⟩ "AAPL" = ("AAPL", "N/A") ∧
    ("N/A" : String) ≠ "$" ++ formatFixed 5 (10 : ℚ) := by
  refine ⟨rfl, by decide⟩

/-- C4 (amended): the historical closing price is consulted only when the
live-price field is cleanly reported missing (then: last close if the series
is non-empty, "N/A" if it is empty or its retrieval fails); any exception
during the live retrieval, and a wrong-typed live value, resolve directly to
"N/A" without consulting the series; a present numeric live price is used as
is; and no per-symbol failure escapes — each symbol of a batch resolves from
its own ticker alone, so a failing symbol yields "N/A" while the rest of the
batch completes. -/
theorem single_price_fallback_amended (sym : String) (q : ℚ) (qs : List ℚ)
    (t : String) (cs : PyResult (List ℚ)) :
    fetch_single_price ⟨.ok none, .ok (qs ++ [q])⟩ sym = (sym, "$" ++ formatFixed 5 q) ∧
    fetch_single_price ⟨.ok none, .ok []⟩ sym = (sym, "N/A") ∧
    fetch_single_price ⟨.ok none, .exc .typed⟩ sym = (sym, "N/A") ∧
    fetch_single_price ⟨.ok none, .exc .other⟩ sym = (sym, "N/A") ∧
    fetch_single_price ⟨.exc .other, cs⟩ sym = (sym, "N/A") ∧
    fetch_single_price ⟨.exc .typed, cs⟩ sym = (sym, "N/A") ∧
    (t ≠ "N/A" → fetch_single_price ⟨.ok (some (.str t)), cs⟩ sym = (sym, "N/A")) ∧
    fetch_single_price ⟨.ok (some (.num q)), cs⟩ sym = (sym, "$" ++ formatFixed 5 q) ∧
    (∀ (envs : String → TickerEnv) (symbols : List String) (u : String),
      u ∈ symbols → is_valid_symbol u = true →
      dictGet (price_results envs (symbols.filter is_valid_symbol)) u "N/A" =
        (fetch_single_price (envs u) u).2) := by
  refine ⟨?_, rfl, rfl, rfl, rfl, rfl, ?_, ?_, ?_⟩
  · simp [fetch_single_price, inner_price, List.getLast?_concat]
  · intro ht
    simp [fetch_single_price, inner_price, ht]
  · simp [fetch_single_price, inner_price]
  · intro envs symbols u hu hv
    rw [dictGet_price_results, if_pos (List.mem_filter.mpr ⟨hu, hv⟩)]

/-- C4 (witness): a wrong-typed live value resolves to "N/A", and a valid
batch symbol resolves from its own ticker. -/
theorem single_price_fallback_amended_witness :
    fetch_single_price ⟨.ok (some (.str "oops")), .ok [(5 : ℚ)]⟩ "MSFT" = ("MSFT", "N/A") ∧
    dictGet (price_results envs0 (["MSFT"].filter is_valid_symbol)) "MSFT" "N/A" =
      (fetch_single_price (envs0 "MSFT") "MSFT").2 :=
  ⟨(single_price_fallback_amended "MSFT" 5 [] "oops" (.ok [(5 : ℚ)])).2.2.2.2.2.2.1
      (by decide),
   (single_price_fallback_amended "MSFT" 5 [] "oops" (.ok [(5 : ℚ)])).2.2.2.2.2.2.2.2
      envs0 ["MSFT"] "MSFT" (by decide) (by decide)⟩

theorem lru_insert_entries (st : LRUCache) (k : List String)
    (v : List (String × String)) :
    (lru_insert st k v).entries = (k, v) :: st.entries.take 99 := by
  unfold lru_insert
  rw [show (100 : ℕ) = 99 + 1 from rfl, List.take_succ_cons]

/-- After any call, the key just used sits at the most-recently-used position
with the mapping just returned. -/
theorem fetch_cache_head (envs : String → TickerEnv) (st : LRUCache)
    (syms : List String) :
    ∃ rest, (fetch_stock_prices envs st syms).cache.entries =
      (syms, (fetch_stock_prices envs st syms).prices) :: rest := by
  rcases h : lru_lookup st syms with _ | v
  · by_cases he : (syms.filter is_valid_symbol).isEmpty
    · exact ⟨st.entries.take 99, by simp [fetch_stock_prices, h, he, lru_insert_entries]⟩
    · exact ⟨st.entries.take 99, by simp [fetch_stock_prices, h, he, lru_insert_entries]⟩
  · exact ⟨st.entries.filter (fun e => !(e.1 == syms)),
      by simp [fetch_stock_prices, h, lru_touch]⟩

theorem lru_lookup_head (k : List String) (v : List (String × String))
    (rest : List (List String × List (String × String))) :
    lru_lookup ⟨(k, v) :: rest⟩ k = some v := by
  unfold lru_lookup
  rw [List.find?_cons_of_pos _ (by simp)]
  rfl

/-- C3: calling Price-Enrichment twice with the identical ordered symbol
tuple returns the identical mapping the second time, with zero upstream
lookups and no throttling delay — the second call is a pure cache hit. -/
theorem price_enrichment_idempotent (envs : String → TickerEnv)
    (st : LRUCache) (syms : List String) :
    (fetch_stock_prices envs (fetch_stock_prices envs st syms).cache syms).prices =
      (fetch_stock_prices envs st syms).prices ∧
    (fetch_stock_prices envs (fetch_stock_prices envs st syms).cache syms).lookups = 0 ∧
    (fetch_stock_prices envs (fetch_stock_prices envs st syms).cache syms).delayed = false := by
  obtain ⟨rest, hr⟩ := fetch_cache_head envs st syms
  set F := fetch_stock_prices envs st syms with hF
  have hl : lru_lookup F.cache syms = some F.prices := by
    unfold lru_lookup
    rw [hr, List.find?_cons_of_pos _ (by simp)]
    rfl
  refine ⟨?_, ?_, ?_⟩ <;> simp [fetch_stock_prices, hl]

/-- C10: a fresh Price-Enrichment computation over a tuple with no valid
symbol returns the empty mapping with no upstream lookups and no throttling
delay, and every record enriched from it gets realTimePrice = "N/A". -/
theorem no_valid_symbols_empty_map (envs : String → TickerEnv) (st : LRUCache)
    (syms : List String)
    (hinv : ∀ u ∈ syms, is_valid_symbol u = false)
    (hmiss : lru_lookup st syms = none) :
    (fetch_stock_prices envs st syms).prices = [] ∧
    (fetch_stock_prices envs st syms).lookups = 0 ∧
    (fetch_stock_prices envs st syms).delayed = false ∧
    (∀ (data : List TradeRecord) (r : TradeRecord),
      r ∈ attach_prices data (fetch_stock_prices envs st syms).prices →
      r.real_time_price = "N/A") := by
  have hfe : syms.filter is_valid_symbol = [] :=
    List.filter_eq_nil_iff.mpr (fun u hu => by simp [hinv u hu])
  have hfsp : fetch_stock_prices envs st syms = ⟨[], lru_insert st syms [], 0, false⟩ := by
    simp [fetch_stock_prices, hmiss, hfe]
  rw [hfsp]
  refine ⟨rfl, rfl, rfl, ?_⟩
  intro data r hr
  simp only [attach_prices, List.mem_map] at hr
  obtain ⟨entry, -, rfl⟩ := hr
  rfl

/-- C10 (witness): the concrete all-invalid tuple ("N/A" and "") on an empty
cache. -/
theorem no_valid_symbols_empty_map_witness :
    (fetch_stock_prices envs0 ⟨[]⟩ ["N/A", ""]).prices = [] ∧
    (fetch_stock_prices envs0 ⟨[]⟩ ["N/A", ""]).lookups = 0 ∧
    (fetch_stock_prices envs0 ⟨[]⟩ ["N/A", ""]).delayed = false ∧
    (∀ (data : List TradeRecord) (r : TradeRecord),
      r ∈ attach_prices data (fetch_stock_prices envs0 ⟨[]⟩ ["N/A", ""]).prices →
      r.real_time_price = "N/A") :=
  no_valid_symbols_empty_map envs0 ⟨[]⟩ ["N/A", ""] (by decide) rfl

theorem length_filter_of_find? {α : Type} (p : α → Bool) (l : List α) (x : α)
    (h : l.find? p = some x) : (l.filter (fun a => !(p a))).length < l.length := by
  induction l with
  | nil => simp at h
  | cons a t ih =>
    by_cases hp : p a = true
    · have hle : (List.filter (fun a => !(p a)) (a :: t)).length ≤ t.length := by
        rw [List.filter_cons]
        simp only [hp, Bool.not_true, Bool.false_eq_true, if_false]
        exact List.length_filter_le _ t
      simp only [List.length_cons]
      omega
    · rw [List.find?_cons_of_neg _ hp] at h
      rw [List.filter_cons]
      simp only [hp, Bool.not_eq_true', Bool.not_false, if_true]
      simp only [List.length_cons]
      exact Nat.succ_lt_succ (ih h)

/-- C9: the cache holds at most 100 keys; a miss on a full cache inserts the
new key at the most-recently-used position and evicts exactly the
least-recently-used entry (the last); and keys are compared as ordered
tuples, so the same symbols in a different order form a distinct key. -/
theorem lru_capacity_and_eviction (envs : String → TickerEnv) (st : LRUCache)
    (syms : List String) (v : List (String × String))
    (h100 : st.entries.length = 100) (hmiss : lru_lookup st syms = none) :
    (fetch_stock_prices envs st syms).cache.entries.length = 100 ∧
    (fetch_stock_prices envs st syms).cache.entries =
      (syms, (fetch_stock_prices envs st syms).prices) :: st.entries.dropLast ∧
    (∀ k1 k2 : List String, k1.Perm k2 → k1 ≠ k2 →
      lru_lookup ⟨[(k1, v)]⟩ k2 = none) ∧
    (∀ st2 : LRUCache, st2.entries.length ≤ 100 →
      (fetch_stock_prices envs st2 syms).cache.entries.length ≤ 100) := by
  have htake : st.entries.take 99 = st.entries.dropLast := by
    rw [List.dropLast_eq_take, h100]
  have hkey : (fetch_stock_prices envs st syms).cache.entries =
      (syms, (fetch_stock_prices envs st syms).prices) :: st.entries.dropLast := by
    by_cases he : (syms.filter is_valid_symbol).isEmpty
    · simp [fetch_stock_prices, hmiss, he, lru_insert_entries, htake]
    · simp [fetch_stock_prices, hmiss, he, lru_insert_entries, htake]
  refine ⟨?_, hkey, ?_, ?_⟩
  · rw [hkey]
    simp only [List.length_cons, List.length_dropLast, h100]
  · intro k1 k2 _ hne
    unfold lru_lookup
    rw [List.find?_cons_of_neg _ (by simpa using hne)]
    rfl
  · intro st2 hst2
    rcases h2 : lru_lookup st2 syms with _ | w
    · by_cases he : (syms.filter is_valid_symbol).isEmpty
      · simp only [fetch_stock_prices, h2, he, if_true, lru_insert]
        exact le_trans (List.length_take_le _ _) (le_refl _)
      · simp only [fetch_stock_prices, h2, he, if_false, lru_insert]
        exact le_trans (List.length_take_le _ _) (le_refl _)
    · have hfind : st2.entries.find? (fun e => e.1 == syms) ≠ none := by
        unfold lru_lookup at h2
        intro hn
        rw [hn] at h2
        simp at h2
      rcases hx : st2.entries.find? (fun e => e.1 == syms) with _ | x
      · exact absurd hx hfind
      · have hlt : (List.filter (fun e => !(e.1 == syms)) st2.entries).length <
            st2.entries.length :=
          length_filter_of_find? (fun e => e.1 == syms) st2.entries x hx
        simp only [fetch_stock_prices, h2, lru_touch, List.length_cons]
        omega

/-- C9 (witness): a miss on a concrete full cache keeps the size at 100, and
the same two symbols in swapped order miss each other's key. -/
theorem lru_capacity_and_eviction_witness :
    (fetch_stock_prices envs0 st100 ["AAPL"]).cache.entries.length = 100 ∧
    lru_lookup ⟨[(["A", "B"], [])]⟩ ["B", "A"] = none :=
  ⟨(lru_capacity_and_eviction envs0 st100 ["AAPL"] [] (by decide) (by decide)).1,
   (lru_capacity_and_eviction envs0 st100 ["AAPL"] [] (by decide) (by decide)).2.2.1
     ["A", "B"] ["B", "A"] (by decide) (by decide)⟩
